import Mathlib

/-!
Shallow embedding of `src/tagfs/db.py`: the five sqlite tables created by
`Database.INIT` and the cursor operations of `_TagsCursor`, `_FilesCursor`,
`_OptionsCursor` and `_SelectionsCursor`.  Tables are lists of rows in rowid
order; `fetchone` is `List.find?`, a `DELETE`/`UPDATE` statement is a
`filter`/`map` over the table, and an `INSERT` appends a row whose rowid is
one more than the largest one in use (sqlite's rule for an
`INTEGER PRIMARY KEY` column).  Statements that raise (UNIQUE-constraint
violations, malformed SQL) are modelled with `Except`: an error return means
the exception propagated and nothing was committed.
-/

namespace Tagfs

/-- A row of the `tags` table: `id INTEGER PRIMARY KEY, name TEXT UNIQUE`. -/
structure TagRow where
  id : Int
  name : String
deriving DecidableEq

/-- A row of the `tag_files` association table; both columns are plain
INTEGER columns without constraints, so either may be NULL. -/
structure AssocRow where
  tag_id : Option Int
  file_id : Option Int
deriving DecidableEq

/-- A row of the `files` table: `id INTEGER PRIMARY KEY, name TEXT, path TEXT`
(no uniqueness on `name`). -/
structure FileRow where
  id : Int
  name : String
  path : String
deriving DecidableEq

/-- A row of the `options` table: `name TEXT UNIQUE, value`. -/
structure OptionRow where
  name : String
  value : String
deriving DecidableEq

/-- A row of the `selections` table: `name TEXT UNIQUE, value TEXT`. -/
structure SelectionRow where
  name : String
  value : String
deriving DecidableEq

/-- The database state: the five tables created by `Database.INIT`. -/
structure State where
  tags : List TagRow
  tag_files : List AssocRow
  files : List FileRow
  options : List OptionRow
  selections : List SelectionRow
deriving DecidableEq

/-- Errors the sqlite3 engine raises through the cursor: a UNIQUE-constraint
violation (`sqlite3.IntegrityError`) or a malformed statement
(`sqlite3.OperationalError`). -/
inductive DbError where
  | uniqueViolation (table : String)
  | malformedStatement (near : String)
deriving DecidableEq

instance instDecEqExcept {ε α : Type} [DecidableEq ε] [DecidableEq α] :
    DecidableEq (Except ε α) := fun a b =>
  match a, b with
  | .error e, .error f =>
      if h : e = f then isTrue (congrArg Except.error h)
      else isFalse (fun hc => h (Except.error.inj hc))
  | .ok x, .ok y =>
      if h : x = y then isTrue (congrArg Except.ok h)
      else isFalse (fun hc => h (Except.ok.inj hc))
  | .error _, .ok _ => isFalse (fun hc => Except.noConfusion hc)
  | .ok _, .error _ => isFalse (fun hc => Except.noConfusion hc)

/-- The `name_id` union of `db.py`: a reference that is either a textual name
or a numeric id. -/
inductive NameId where
  | str (s : String)
  | int (i : Int)
deriving DecidableEq

/-- SQL equality `col = parameter` as used in WHERE clauses: a NULL on either
side never matches (`NULL = x` is not true in SQL). -/
def sqlEq (a b : Option Int) : Bool :=
  match a, b with
  | some x, some y => x = y
  | _, _ => false

/-- The rowid sqlite assigns to a fresh row of a table whose `id` is an
`INTEGER PRIMARY KEY`: one more than the largest id in use, or 1 for an empty
table. -/
def nextId (l : List Int) : Int :=
  match l with
  | [] => 1
  | x :: xs => xs.foldl max x + 1

/-- Core of `_TagsCursor.get_id`, depending only on the `tags` table: a
numeric reference passes through unchecked, the name `"__ALL__"` resolves to
-1, any other name is looked up (None when absent). -/
def tagsGetIdCore (tags : List TagRow) (n : NameId) : Option Int :=
  match n with
  | .int i => some i
  | .str s =>
      if s = "__ALL__" then some (-1)
      else (tags.find? (fun r => r.name = s)).map (fun r => r.id)

/-- `_TagsCursor.get_id`. -/
def tagsGetId (st : State) (n : NameId) : Option Int :=
  tagsGetIdCore st.tags n

/-- `_TagsCursor.get_name`: a string passes through, an id is looked up. -/
def tagsGetName (st : State) (n : NameId) : Option String :=
  match n with
  | .str s => some s
  | .int i => (st.tags.find? (fun r => r.id = i)).map (fun r => r.name)

/-- `_TagsCursor.new`: refuses the sentinel name with `False`; otherwise
`INSERT INTO tags(name)` raises a UNIQUE violation when the name is already
present and appends a fresh row otherwise. -/
def tagsNew (st : State) (name : String) : Except DbError (State × Bool) :=
  if name = "__ALL__" then .ok (st, false)
  else if st.tags.any (fun r => r.name = name) then .error (.uniqueViolation "tags")
  else .ok ({ st with tags := st.tags ++ [⟨nextId (st.tags.map (fun r => r.id)), name⟩] }, true)

/-- `_TagsCursor.remove`: refuses the literal name `"__ALL__"` (an id of -1
is not intercepted), then deletes the association rows for the resolved id
and the tag row itself. -/
def tagsRemove (st : State) (n : NameId) : State × Bool :=
  if n = .str "__ALL__" then (st, false)
  else
    let i := tagsGetId st n
    ({ st with
        tag_files := st.tag_files.filter (fun a => !sqlEq a.tag_id i),
        tags := st.tags.filter (fun r => !sqlEq (some r.id) i) }, true)

/-- `UPDATE tags SET name = dst WHERE <hit>`: sqlite raises a UNIQUE
violation when an updated row's new name collides with another row (or two
hit rows both receive `dst`); otherwise every hit row is renamed. -/
def tagsRenameBy (st : State) (hit : TagRow → Bool) (dst : String) : Except DbError (State × Bool) :=
  let m := st.tags.countP hit
  if 2 ≤ m ∨ (1 ≤ m ∧ st.tags.any (fun r => !hit r && r.name = dst)) then
    .error (.uniqueViolation "tags")
  else
    .ok ({ st with tags := st.tags.map (fun r => if hit r then { r with name := dst } else r) }, true)

/-- `_TagsCursor.rename`: refuses when either endpoint is the literal name
`"__ALL__"`, then updates by id or by name depending on the type of `src`. -/
def tagsRename (st : State) (src : NameId) (dst : String) : Except DbError (State × Bool) :=
  if src = .str "__ALL__" ∨ dst = "__ALL__" then .ok (st, false)
  else
    match src with
    | .int i => tagsRenameBy st (fun r => r.id = i) dst
    | .str s => tagsRenameBy st (fun r => r.name = s) dst

/-- Core of `_FilesCursor.get_id`, depending only on the `files` table. -/
def filesGetIdCore (files : List FileRow) (n : NameId) : Option Int :=
  match n with
  | .int i => some i
  | .str s => (files.find? (fun r => r.name = s)).map (fun r => r.id)

/-- `_FilesCursor.get_id`. -/
def filesGetId (st : State) (n : NameId) : Option Int :=
  filesGetIdCore st.files n

/-- `_FilesCursor.get_name`. -/
def filesGetName (st : State) (n : NameId) : Option String :=
  match n with
  | .str s => some s
  | .int i => (st.files.find? (fun r => r.id = i)).map (fun r => r.name)

/-- `_FilesCursor.new`: unconditional insert, duplicate names permitted. -/
def filesNew (st : State) (name path : String) : State × Bool :=
  ({ st with files := st.files ++ [⟨nextId (st.files.map (fun r => r.id)), name, path⟩] }, true)

/-- `_FilesCursor.remove`: deletes the association rows for the resolved id,
then the file row (no sentinel check at all). -/
def filesRemove (st : State) (n : NameId) : State × Bool :=
  let i := filesGetId st n
  ({ st with
      tag_files := st.tag_files.filter (fun a => !sqlEq a.file_id i),
      files := st.files.filter (fun r => !sqlEq (some r.id) i) }, true)

/-- `_FilesCursor.all_names`. -/
def filesAllNames (st : State) : List String :=
  st.files.map (fun r => r.name)

/-- `_FilesCursor.rename`: updates by id or by name; by name it updates
every file sharing that name (`files.name` carries no UNIQUE constraint). -/
def filesRename (st : State) (src : NameId) (dst : String) : State × Bool :=
  match src with
  | .int i =>
      ({ st with files := st.files.map (fun r => if r.id = i then { r with name := dst } else r) }, true)
  | .str s =>
      ({ st with files := st.files.map (fun r => if r.name = s then { r with name := dst } else r) }, true)

/-- `_FilesCursor.get_by_tag`: the literal name `"__ALL__"` short-circuits to
`all_names`, bypassing the join; any other reference is resolved and joined
through `tag_files`. -/
def filesGetByTag (st : State) (tag : NameId) : List String :=
  if tag = .str "__ALL__" then filesAllNames st
  else
    let t := tagsGetId st tag
    (st.tag_files.filter (fun a => sqlEq a.tag_id t)).flatMap
      (fun a => (st.files.filter (fun f => sqlEq (some f.id) a.file_id)).map (fun f => f.name))

/-- `_FilesCursor.add_tag`: refuses the literal tag name `"__ALL__"`, then
inserts one association row with whatever the two resolvers returned —
including NULL for an unresolved name. -/
def filesAddTag (st : State) (name tag : NameId) : State × Bool :=
  if tag = .str "__ALL__" then (st, false)
  else ({ st with tag_files := st.tag_files ++ [⟨tagsGetId st tag, filesGetId st name⟩] }, true)

/-- `_FilesCursor.remove_tag`: refuses the literal tag name `"__ALL__"`,
then deletes the association rows matching both resolved ids. -/
def filesRemoveTag (st : State) (name tag : NameId) : State × Bool :=
  if tag = .str "__ALL__" then (st, false)
  else
    let t := tagsGetId st tag
    let f := filesGetId st name
    ({ st with tag_files := st.tag_files.filter (fun a => !(sqlEq a.tag_id t && sqlEq a.file_id f)) }, true)

/-- `_FilesCursor.has_tag`: true unconditionally when the tag reference is
the name `"__ALL__"` or the id -1; otherwise checks association existence. -/
def filesHasTag (st : State) (name tag : NameId) : Bool :=
  if tag = .str "__ALL__" ∨ tag = .int (-1) then true
  else
    st.tag_files.any (fun a => sqlEq a.tag_id (tagsGetId st tag) && sqlEq a.file_id (filesGetId st name))

/-- The join of `_FilesCursor.get_tags`: names of the tags whose id matches
an association row carrying the given file id. -/
def joinTagNames (tags : List TagRow) (assocs : List AssocRow) (fid : Option Int) : List String :=
  (assocs.filter (fun a => sqlEq a.file_id fid)).flatMap
    (fun a => (tags.filter (fun t => sqlEq (some t.id) a.tag_id)).map (fun t => t.name))

/-- `_FilesCursor.get_tags`. -/
def filesGetTags (st : State) (name : NameId) : List String :=
  joinTagNames st.tags st.tag_files (filesGetId st name)

/-- The per-tag loop of `_FilesCursor.set_tags`: resolve the tag, auto-create
a missing one via `tags.new` — which issues its own `commit()` — re-resolve,
and insert one association row.  `commits` accumulates every committed state
in order. -/
def setTagsLoop (fid : Option Int) (ts : List NameId) (st : State) (commits : List State) :
    Except DbError (State × List State) :=
  match ts with
  | [] => .ok (st, commits)
  | tag :: rest =>
    match tag with
    | .int i =>
        setTagsLoop fid rest { st with tag_files := st.tag_files ++ [⟨some i, fid⟩] } commits
    | .str s =>
      match tagsGetIdCore st.tags (.str s) with
      | some i =>
          setTagsLoop fid rest { st with tag_files := st.tag_files ++ [⟨some i, fid⟩] } commits
      | none =>
        match tagsNew st s with
        | .error e => .error e
        | .ok (st1, b) =>
            setTagsLoop fid rest
              { st1 with tag_files := st1.tag_files ++ [⟨tagsGetIdCore st1.tags (.str s), fid⟩] }
              (if b then commits ++ [st1] else commits)

/-- `_FilesCursor.set_tags`: resolve the file once, delete all of its
association rows, run the per-tag loop, commit.  The middle component of the
result lists every committed state in order, the final commit last. -/
def filesSetTags (st : State) (name : NameId) (ts : List NameId) :
    Except DbError (State × List State × Bool) :=
  let fid := filesGetId st name
  let st0 := { st with tag_files := st.tag_files.filter (fun a => !sqlEq a.file_id fid) }
  match setTagsLoop fid ts st0 [] with
  | .error e => .error e
  | .ok (st1, commits) => .ok (st1, commits ++ [st1], true)

/-- `_OptionsCursor.set`: `INSERT OR REPLACE` drops any row with the same
name and appends the new one. -/
def optionsSet (st : State) (name value : String) : State :=
  { st with options := st.options.filter (fun r => r.name ≠ name) ++ [⟨name, value⟩] }

/-- `_OptionsCursor.get`. -/
def optionsGet (st : State) (name : String) : Option String :=
  (st.options.find? (fun r => r.name = name)).map (fun r => r.value)

/-- `_OptionsCursor.unset` executes `REMOVE FROM options WHERE name = ?`.
`REMOVE` is not an SQL statement, so sqlite3 raises an OperationalError
before touching any row; the state is left unchanged. -/
def optionsUnset (_st : State) (_name : String) : Except DbError State :=
  .error (.malformedStatement "REMOVE")

/-- `_SelectionsCursor.new`: `INSERT INTO selections(name, value)` raises a
UNIQUE violation when the name is already present. -/
def selectionsNew (st : State) (name value : String) : Except DbError (State × Bool) :=
  if st.selections.any (fun r => r.name = name) then .error (.uniqueViolation "selections")
  else .ok ({ st with selections := st.selections ++ [⟨name, value⟩] }, true)

/-- `_SelectionsCursor.resolve`: returns the stored predicate text. -/
def selectionsResolve (st : State) (name : String) : Option String :=
  (st.selections.find? (fun r => r.name = name)).map (fun r => r.value)

/-- The empty database, as created by `Database.INIT` on a fresh file. -/
def emptyState : State :=
  ⟨[], [], [], [], []⟩

/-- A small populated store: one tag `old` (id 1), one file `f` (id 1), and
one association linking them. -/
def demoState : State :=
  ⟨[⟨1, "old"⟩], [⟨some 1, some 1⟩], [⟨1, "f", "p"⟩], [], []⟩

/-- A store with two files sharing the name `a`, and no tags. -/
def dupFilesState : State :=
  ⟨[], [], [⟨1, "a", "p"⟩, ⟨2, "a", "q"⟩], [], []⟩

/-- A store whose tag table and selection table both hold the name `t`. -/
def demoNamesState : State :=
  ⟨[⟨1, "t"⟩], [], [], [], [⟨"t", "pred"⟩]⟩

/-! ### Helper lemmas -/

theorem le_foldl_max_init : ∀ (l : List Int) (a : Int), a ≤ l.foldl max a := by
  intro l
  induction l with
  | nil => intro a; exact le_refl a
  | cons x xs ih => intro a; exact le_trans (le_max_left a x) (ih (max a x))

theorem le_foldl_max_of_mem : ∀ (l : List Int) (a x : Int), x ∈ l → x ≤ l.foldl max a := by
  intro l
  induction l with
  | nil => intro a x hx; cases hx
  | cons y ys ih =>
      intro a x hx
      rcases List.mem_cons.mp hx with h | h
      · subst h; exact le_trans (le_max_right a x) (le_foldl_max_init ys (max a x))
      · exact ih (max a y) x h

theorem lt_nextId_of_mem (l : List Int) (x : Int) (hx : x ∈ l) : x < nextId l := by
  cases l with
  | nil => cases hx
  | cons y ys =>
      have h1 : x ≤ ys.foldl max y := by
        rcases List.mem_cons.mp hx with h | h
        · subst h; exact le_foldl_max_init ys x
        · exact le_foldl_max_of_mem ys y x h
      have h2 : nextId (y :: ys) = ys.foldl max y + 1 := rfl
      omega

theorem nextId_not_mem (l : List Int) : ¬ nextId l ∈ l :=
  fun h => absurd (lt_nextId_of_mem l _ h) (lt_irrefl _)

theorem find?_proj_of_nodup {α β : Type} [DecidableEq β] (f : α → β) :
    ∀ (l : List α) (r : α), r ∈ l → (l.map f).Nodup →
      l.find? (fun x => f x = f r) = some r := by
  intro l
  induction l with
  | nil => intro r hr _; cases hr
  | cons h t ih =>
      intro r hr hnd
      rw [List.map_cons, List.nodup_cons] at hnd
      by_cases hc : f h = f r
      · have hhr : h = r := by
          rcases List.mem_cons.mp hr with h1 | h1
          · exact h1.symm
          · exact absurd (hc ▸ List.mem_map_of_mem f h1) hnd.1
        rw [List.find?_cons_of_pos _ (by simp [hc])]
        rw [hhr]
      · have hr2 : r ∈ t := by
          rcases List.mem_cons.mp hr with h1 | h1
          · exact absurd (by rw [h1]) hc
          · exact h1
        rw [List.find?_cons_of_neg _ (by simp [hc])]
        exact ih r hr2 hnd.2

theorem filter_proj_of_nodup {α β : Type} [DecidableEq β] (f : α → β) :
    ∀ (l : List α) (r : α), r ∈ l → (l.map f).Nodup →
      l.filter (fun x => f x = f r) = [r] := by
  intro l
  induction l with
  | nil => intro r hr _; cases hr
  | cons h t ih =>
      intro r hr hnd
      rw [List.map_cons, List.nodup_cons] at hnd
      by_cases hc : f h = f r
      · have hhr : h = r := by
          rcases List.mem_cons.mp hr with h1 | h1
          · exact h1.symm
          · exact absurd (hc ▸ List.mem_map_of_mem f h1) hnd.1
        have htail : t.filter (fun x => f x = f r) = [] := by
          apply List.filter_eq_nil_iff.mpr
          intro a ha
          simp only [decide_eq_true_eq]
          intro hfa
          exact hnd.1 (by rw [hc, ← hfa]; exact List.mem_map_of_mem f ha)
        have hdec : (decide (f h = f r)) = true := by simp [hc]
        rw [List.filter_cons, if_pos hdec, htail, hhr]
      · have hr2 : r ∈ t := by
          rcases List.mem_cons.mp hr with h1 | h1
          · exact absurd (by rw [h1]) hc
          · exact h1
        have hdec : ¬ (decide (f h = f r)) = true := by simp [hc]
        rw [List.filter_cons, if_neg hdec]
        exact ih r hr2 hnd.2

theorem find?_proj_eq_none {α β : Type} [DecidableEq β] (f : α → β) (l : List α) (s : β)
    (h : ¬ s ∈ l.map f) : l.find? (fun x => f x = s) = none := by
  apply List.find?_eq_none.mpr
  intro x hx
  simp only [decide_eq_true_eq]
  intro hc
  exact h (hc ▸ List.mem_map_of_mem f hx)

theorem find?_eq_some_of_unique {α : Type} (p : α → Bool) :
    ∀ (l : List α) (r : α), r ∈ l → p r = true → (∀ x ∈ l, p x = true → x = r) →
      l.find? p = some r := by
  intro l
  induction l with
  | nil => intro r hr _ _; cases hr
  | cons h t ih =>
      intro r hr hpr huniq
      by_cases hc : p h = true
      · rw [List.find?_cons_of_pos _ hc, huniq h (List.mem_cons_self _ _) hc]
      · have hr2 : r ∈ t := by
          rcases List.mem_cons.mp hr with h1 | h1
          · subst h1; exact absurd hpr hc
          · exact h1
        rw [List.find?_cons_of_neg _ hc]
        exact ih r hr2 hpr (fun x hx hpx => huniq x (List.mem_cons_of_mem _ hx) hpx)

theorem any_congr_of_mem {α : Type} :
    ∀ (l : List α) (p q : α → Bool), (∀ x ∈ l, p x = q x) → l.any p = l.any q := by
  intro l
  induction l with
  | nil => intro p q _; rfl
  | cons a t ih =>
      intro p q h
      simp only [List.any_cons]
      rw [h a (List.mem_cons_self a t), ih p q (fun x hx => h x (List.mem_cons_of_mem a hx))]

/-! ### Claim C1: sentinel immutability -/

/-- C1 (counterexample): the claim demands that `Files.add_tag` with the
sentinel given as id -1 fail and leave the store unchanged, but the guard
only compares against the literal name, so `add_tag(1, -1)` inserts an
association row with tag_id -1 and returns True. -/
theorem c1_counterexample :
    filesAddTag emptyState (.int 1) (.int (-1)) =
      (⟨[], [⟨some (-1), some 1⟩], [], [], []⟩, true) := by decide

/-- C1 (amended): the sentinel referenced by its name `"__ALL__"` makes
`Tags.new`, `Tags.remove`, `Tags.rename` (either endpoint), `Files.add_tag`
and `Files.remove_tag` leave the store unchanged and return False; the
sentinel referenced by its id -1 is not intercepted — those operations
proceed and return True. -/
theorem c1_amended (st : State) (f src : NameId) (dst : String) :
    tagsNew st "__ALL__" = .ok (st, false) ∧
    tagsRemove st (.str "__ALL__") = (st, false) ∧
    tagsRename st (.str "__ALL__") dst = .ok (st, false) ∧
    tagsRename st src "__ALL__" = .ok (st, false) ∧
    filesAddTag st f (.str "__ALL__") = (st, false) ∧
    filesRemoveTag st f (.str "__ALL__") = (st, false) ∧
    (tagsRemove st (.int (-1))).2 = true ∧
    (filesAddTag st f (.int (-1))).2 = true ∧
    (filesRemoveTag st f (.int (-1))).2 = true := by
  refine ⟨?_, ?_, ?_, ?_, ?_, ?_, ?_, ?_, ?_⟩ <;>
    simp [tagsNew, tagsRemove, tagsRename, filesAddTag, filesRemoveTag]

/-! ### Claim C2: set_tags commit placement -/

/-- When every tag in the list already resolves against the current `tags`
table, the `set_tags` loop never calls `tags.new`, so it adds no commit of
its own and leaves the tag table unchanged. -/
theorem setTagsLoop_noCreate :
    ∀ (ts : List NameId) (st : State) (commits : List State) (fid : Option Int),
      (∀ tag ∈ ts, (tagsGetIdCore st.tags tag).isSome) →
      ∃ st2, setTagsLoop fid ts st commits = .ok (st2, commits) ∧ st2.tags = st.tags := by
  intro ts
  induction ts with
  | nil => intro st commits fid _; exact ⟨st, rfl, rfl⟩
  | cons tag rest ih =>
      intro st commits fid h
      cases tag with
      | int i =>
          obtain ⟨st2, heq, htags⟩ :=
            ih { st with tag_files := st.tag_files ++ [⟨some i, fid⟩] } commits fid
              (fun t ht => h t (List.mem_cons_of_mem _ ht))
          exact ⟨st2, by simp only [setTagsLoop, heq], htags⟩
      | str s =>
          have hsome := h (.str s) (List.mem_cons_self _ _)
          rcases Option.isSome_iff_exists.mp hsome with ⟨i, hi⟩
          obtain ⟨st2, heq, htags⟩ :=
            ih { st with tag_files := st.tag_files ++ [⟨some i, fid⟩] } commits fid
              (fun t ht => h t (List.mem_cons_of_mem _ ht))
          exact ⟨st2, by simp only [setTagsLoop, hi, heq], htags⟩

/-- C2 (counterexample): the claim demands exactly one commit for every file
reference and tag list, but `set_tags(1, ["a"])` on a store where tag `a`
does not exist commits twice — `tags.new` commits mid-sequence — and the
first committed state has the file's old association deleted and the new one
not yet inserted (`tag_files` empty). -/
theorem c2_counterexample :
    filesSetTags demoState (.int 1) [NameId.str "a"] =
      .ok (⟨[⟨1, "old"⟩, ⟨2, "a"⟩], [⟨some 2, some 1⟩], [⟨1, "f", "p"⟩], [], []⟩,
           [⟨[⟨1, "old"⟩, ⟨2, "a"⟩], [], [⟨1, "f", "p"⟩], [], []⟩,
            ⟨[⟨1, "old"⟩, ⟨2, "a"⟩], [⟨some 2, some 1⟩], [⟨1, "f", "p"⟩], [], []⟩], true) := by
  decide

/-- C2 (amended): when every listed tag already resolves (so no tag is
auto-created), `Files.set_tags` executes exactly one commit, placed after
the whole delete-then-insert sequence; when a listed tag name is absent,
`tags.new` issues an additional commit mid-sequence, exposing a state with
the old associations deleted but not all new ones inserted. -/
theorem c2_amended (st : State) (f : NameId) (ts : List NameId)
    (h : ∀ tag ∈ ts, (tagsGetId st tag).isSome) :
    ∃ st2, filesSetTags st f ts = .ok (st2, [st2], true) := by
  obtain ⟨st2, heq, -⟩ :=
    setTagsLoop_noCreate ts
      { st with tag_files := st.tag_files.filter (fun a => !sqlEq a.file_id (filesGetId st f)) }
      [] (filesGetId st f) (fun tag ht => h tag ht)
  refine ⟨st2, ?_⟩
  simp only [filesSetTags, heq]
  rfl

/-- C2 witness: the single-commit shape at a concrete store where the tag
already exists. -/
theorem c2_amended_witness :
    (∀ tag ∈ [NameId.str "old"], (tagsGetId demoState tag).isSome) ∧
    ∃ st2, filesSetTags demoState (.int 1) [NameId.str "old"] = .ok (st2, [st2], true) :=
  ⟨by decide, c2_amended demoState (.int 1) [NameId.str "old"] (by decide)⟩

/-! ### Claim C3: Options.unset -/

/-- C3: `Options.unset` executes `REMOVE FROM options WHERE name = ?`, which
is not SQL; after `set("a", "v")`, `unset("a")` raises an OperationalError
and the row survives, so `get("a")` still returns `"v"` — the claim (and the
method's own docstring) say the row is removed and no engine error occurs. -/
theorem c3_unset_raises :
    optionsUnset (optionsSet emptyState "a" "v") "a" = .error (.malformedStatement "REMOVE") ∧
    optionsGet (optionsSet emptyState "a" "v") "a" = some "v" := by decide

/-! ### Claim C4: reference interchangeability -/

/-- `UPDATE tags SET name = dst WHERE <hit>` behaves identically for two hit
predicates that agree on every row of the table. -/
theorem tagsRenameBy_congr (st : State) (p q : TagRow → Bool) (dst : String)
    (h : ∀ x ∈ st.tags, p x = q x) :
    tagsRenameBy st p dst = tagsRenameBy st q dst := by
  have hcount : st.tags.countP p = st.tags.countP q :=
    List.countP_congr (fun x hx => by rw [h x hx])
  have hany : (st.tags.any fun x => !p x && x.name = dst) =
      (st.tags.any fun x => !q x && x.name = dst) :=
    any_congr_of_mem st.tags _ _ (fun x hx => by rw [h x hx])
  have hmap : (st.tags.map fun x => if p x then { x with name := dst } else x) =
      (st.tags.map fun x => if q x then { x with name := dst } else x) :=
    List.map_congr_left (fun x hx => by rw [h x hx])
  simp only [tagsRenameBy, hcount, hany, hmap]

/-- C4 (counterexample): with two files both named `a`, `Files.rename` by
the name renames both rows while `rename` by the id renames only one, so
the resulting stores differ; and `get_by_tag` with the sentinel name lists
every file while `get_by_tag(-1)` queries the join and returns nothing. -/
theorem c4_counterexample :
    filesRename dupFilesState (.str "a") "b" ≠ filesRename dupFilesState (.int 1) "b" ∧
    filesGetByTag demoState (.str "__ALL__") ≠ filesGetByTag demoState (.int (-1)) := by
  decide

/-- C4 (amended): for a stored tag (names unique by constraint, not the
sentinel) every covered operation given the name agrees with the operation
given the id; for a stored file the same holds provided no other file shares
that file's name (duplicate names elsewhere in the store are fine);
`get_by_tag` agrees for a stored tag but not for `"__ALL__"` versus -1. -/
theorem c4_amended (st : State) (r : TagRow) (fr : FileRow) (dst : String)
    (hr : r ∈ st.tags) (hfr : fr ∈ st.files)
    (hTagIds : (st.tags.map (fun t => t.id)).Nodup)
    (hTagNames : (st.tags.map (fun t => t.name)).Nodup)
    (hFileIds : (st.files.map (fun t => t.id)).Nodup)
    (hUniq : ∀ g ∈ st.files, g.name = fr.name → g = fr)
    (hSent : r.name ≠ "__ALL__") :
    tagsGetId st (.str r.name) = some r.id ∧
    tagsGetName st (.int r.id) = some r.name ∧
    filesGetId st (.str fr.name) = some fr.id ∧
    filesGetName st (.int fr.id) = some fr.name ∧
    tagsRemove st (.str r.name) = tagsRemove st (.int r.id) ∧
    tagsRename st (.str r.name) dst = tagsRename st (.int r.id) dst ∧
    filesRemove st (.str fr.name) = filesRemove st (.int fr.id) ∧
    filesRename st (.str fr.name) dst = filesRename st (.int fr.id) dst ∧
    filesGetByTag st (.str r.name) = filesGetByTag st (.int r.id) := by
  have hgid : tagsGetId st (.str r.name) = some r.id := by
    simp only [tagsGetId, tagsGetIdCore, if_neg hSent]
    rw [find?_proj_of_nodup (fun t => t.name) st.tags r hr hTagNames]
    rfl
  have hgname : tagsGetName st (.int r.id) = some r.name := by
    simp only [tagsGetName]
    rw [find?_proj_of_nodup (fun t => t.id) st.tags r hr hTagIds]
    rfl
  have hfid : filesGetId st (.str fr.name) = some fr.id := by
    simp only [filesGetId, filesGetIdCore]
    rw [find?_eq_some_of_unique (fun x => x.name = fr.name) st.files fr hfr (by simp)
      (fun x hx hpx => hUniq x hx (by simpa using hpx))]
    rfl
  have hfname : filesGetName st (.int fr.id) = some fr.name := by
    simp only [filesGetName]
    rw [find?_proj_of_nodup (fun t => t.id) st.files fr hfr hFileIds]
    rfl
  have hne : (NameId.str r.name) ≠ NameId.str "__ALL__" := by simp [hSent]
  have hne2 : (NameId.int r.id) ≠ NameId.str "__ALL__" := by simp
  refine ⟨hgid, hgname, hfid, hfname, ?_, ?_, ?_, ?_, ?_⟩
  · simp only [tagsRemove, if_neg hne, if_neg hne2, hgid]
    rfl
  · by_cases hdst : dst = "__ALL__"
    · simp [tagsRename, hdst]
    · have h1 : tagsRename st (.str r.name) dst = tagsRenameBy st (fun x => x.name = r.name) dst := by
        simp [tagsRename, hSent, hdst]
      have h2 : tagsRename st (.int r.id) dst = tagsRenameBy st (fun x => x.id = r.id) dst := by
        simp [tagsRename, hdst]
      rw [h1, h2]
      apply tagsRenameBy_congr
      intro x hx
      apply decide_eq_decide.mpr
      constructor
      · intro he; rw [List.inj_on_of_nodup_map hTagNames hx hr he]
      · intro he; rw [List.inj_on_of_nodup_map hTagIds hx hr he]
  · simp only [filesRemove, hfid]
    rfl
  · simp only [filesRename]
    have hmap : (st.files.map fun x => if x.name = fr.name then { x with name := dst } else x) =
        (st.files.map fun x => if x.id = fr.id then { x with name := dst } else x) := by
      apply List.map_congr_left
      intro x hx
      apply if_congr ?_ rfl rfl
      constructor
      · intro he; rw [hUniq x hx he]
      · intro he; rw [List.inj_on_of_nodup_map hFileIds hx hfr he]
    rw [hmap]
  · simp only [filesGetByTag, if_neg hne, if_neg hne2, hgid]
    rfl

/-- C4 witness: the interchangeability conjunction at a concrete store. -/
theorem c4_amended_witness :
    (⟨1, "old"⟩ : TagRow) ∈ demoState.tags ∧
    (tagsGetId demoState (.str "old") = some 1 ∧
     tagsGetName demoState (.int 1) = some "old" ∧
     filesGetId demoState (.str "f") = some 1 ∧
     filesGetName demoState (.int 1) = some "f" ∧
     tagsRemove demoState (.str "old") = tagsRemove demoState (.int 1) ∧
     tagsRename demoState (.str "old") "x" = tagsRename demoState (.int 1) "x" ∧
     filesRemove demoState (.str "f") = filesRemove demoState (.int 1) ∧
     filesRename demoState (.str "f") "x" = filesRename demoState (.int 1) "x" ∧
     filesGetByTag demoState (.str "old") = filesGetByTag demoState (.int 1)) :=
  ⟨by decide, c4_amended demoState ⟨1, "old"⟩ ⟨1, "f", "p"⟩ "x" (by decide) (by decide)
    (by decide) (by decide) (by decide) (by decide) (by decide)⟩

/-! ### Claim C5: set_tags is a full replace -/

/-- C5 (counterexample): the claim quantifies over every tag-name list, but
a list containing the sentinel name refutes it: `set_tags(1, ["__ALL__"])`
on a store whose file 1 exists resolves `"__ALL__"` to -1, inserts an
association row with tag_id -1 and never creates a tag row, so `get_tags`
afterwards reports the empty set rather than `{"__ALL__"}`. -/
theorem c5_counterexample :
    filesSetTags demoState (.int 1) [NameId.str "__ALL__"] =
      .ok (⟨[⟨1, "old"⟩], [⟨some (-1), some 1⟩], [⟨1, "f", "p"⟩], [], []⟩,
           [⟨[⟨1, "old"⟩], [⟨some (-1), some 1⟩], [⟨1, "f", "p"⟩], [], []⟩], true) ∧
    filesGetTags (⟨[⟨1, "old"⟩], [⟨some (-1), some 1⟩], [⟨1, "f", "p"⟩], [], []⟩ : State)
      (.int 1) = [] ∧
    (([] : List String).toFinset ≠ (["__ALL__"] : List String).toFinset) := by
  refine ⟨by decide, by decide, by decide⟩

/-- Unfolding of one `set_tags` loop step when the tag resolves. -/
theorem setTagsLoop_cons_some (fid : Option Int) (s : String) (rest : List NameId)
    (st : State) (commits : List State) (i : Int)
    (h : tagsGetIdCore st.tags (.str s) = some i) :
    setTagsLoop fid (.str s :: rest) st commits =
      setTagsLoop fid rest { st with tag_files := st.tag_files ++ [⟨some i, fid⟩] } commits := by
  simp only [setTagsLoop, h]

/-- Unfolding of one `set_tags` loop step when the tag is absent: `tags.new`
inserts a fresh row and commits, the tag is re-resolved, and the association
row is inserted. -/
theorem setTagsLoop_cons_new (fid : Option Int) (s : String) (rest : List NameId)
    (st : State) (commits : List State)
    (h : tagsGetIdCore st.tags (.str s) = none)
    (hany : st.tags.any (fun t => t.name = s) = false)
    (hs : s ≠ "__ALL__") :
    setTagsLoop fid (.str s :: rest) st commits =
      setTagsLoop fid rest
        { st with
            tags := st.tags ++ [⟨nextId (st.tags.map (fun t => t.id)), s⟩],
            tag_files := st.tag_files ++
              [⟨tagsGetIdCore (st.tags ++ [⟨nextId (st.tags.map (fun t => t.id)), s⟩]) (.str s), fid⟩] }
        (commits ++ [{ st with tags := st.tags ++ [⟨nextId (st.tags.map (fun t => t.id)), s⟩] }]) := by
  have hnew : tagsNew st s =
      .ok ({ st with tags := st.tags ++ [⟨nextId (st.tags.map (fun t => t.id)), s⟩] }, true) := by
    simp [tagsNew, hs, hany]
  simp only [setTagsLoop, h, hnew]
  rfl

/-- Prepending an association row whose file id matches the filter splices
the matching tag names in front of the join. -/
theorem joinTagNames_cons_same (tags : List TagRow) (i v : Int) (rows : List AssocRow) :
    joinTagNames tags (⟨some i, some v⟩ :: rows) (some v) =
      (tags.filter (fun t => t.id = i)).map (fun t => t.name) ++ joinTagNames tags rows (some v) := by
  have hvv : sqlEq (some v) (some v) = true := by simp [sqlEq]
  simp only [joinTagNames, List.filter_cons]
  rw [show sqlEq (AssocRow.file_id ⟨some i, some v⟩) (some v) = true from hvv]
  simp only [if_pos, List.flatMap_cons]
  congr 1

/-- The join distributes over appending association rows. -/
theorem joinTagNames_append (tags : List TagRow) (l1 l2 : List AssocRow) (fid : Option Int) :
    joinTagNames tags (l1 ++ l2) fid = joinTagNames tags l1 fid ++ joinTagNames tags l2 fid := by
  simp [joinTagNames, List.filter_append, List.flatMap_append]

/-- The `set_tags` loop over a list of tag names, none the sentinel, run
with a non-NULL file id: it extends the tag table by the auto-created rows
(ids staying distinct), appends one association row per listed tag, the
appended rows join back to exactly the listed names in order, and each name
absent from the incoming table is stored exactly once. -/
theorem setTagsLoop_spec (v : Int) :
    ∀ (ts : List String) (st : State) (commits : List State),
      (st.tags.map (fun t => t.id)).Nodup →
      (∀ s ∈ ts, s ≠ "__ALL__") →
      ∃ (ext : List TagRow) (rows : List AssocRow) (commits2 : List State),
        setTagsLoop (some v) (ts.map NameId.str) st commits =
          .ok ({ st with tags := st.tags ++ ext, tag_files := st.tag_files ++ rows }, commits2) ∧
        ((st.tags ++ ext).map (fun t => t.id)).Nodup ∧
        joinTagNames (st.tags ++ ext) rows (some v) = ts ∧
        (∀ s : String, (st.tags ++ ext).countP (fun t => t.name = s) =
          st.tags.countP (fun t => t.name = s) +
            (if s ∈ ts ∧ ¬ s ∈ st.tags.map (fun t => t.name) then 1 else 0)) := by
  intro ts
  induction ts with
  | nil =>
      intro st commits hnd _
      refine ⟨[], [], commits, by simp [setTagsLoop], by simpa using hnd, rfl, ?_⟩
      intro s; simp
  | cons s0 rest ih =>
      intro st commits hnd hall
      have hs0 : s0 ≠ "__ALL__" := hall s0 (List.mem_cons_self _ _)
      have hall2 : ∀ s ∈ rest, s ≠ "__ALL__" := fun s hs => hall s (List.mem_cons_of_mem _ hs)
      cases hfind : st.tags.find? (fun t => t.name = s0) with
      | some r =>
          have hcore : tagsGetIdCore st.tags (.str s0) = some r.id := by
            simp [tagsGetIdCore, hs0, hfind]
          have hrname : r.name = s0 := by
            have := List.find?_some hfind
            simpa using this
          have hrmem : r ∈ st.tags := List.mem_of_find?_eq_some hfind
          obtain ⟨ext, rows, commits2, heq, hnd2, hjoin, hcount⟩ :=
            ih { st with tag_files := st.tag_files ++ [⟨some r.id, some v⟩] } commits hnd hall2
          dsimp only at heq hnd2 hjoin hcount
          refine ⟨ext, ⟨some r.id, some v⟩ :: rows, commits2, ?_, ?_, ?_, ?_⟩
          · rw [List.map_cons, setTagsLoop_cons_some (some v) s0 (List.map NameId.str rest)
              st commits r.id hcore, heq]
            simp [List.append_assoc]
          · exact hnd2
          · have hx : (st.tags ++ ext).filter (fun t => t.id = r.id) = [r] :=
              filter_proj_of_nodup (fun t => t.id) (st.tags ++ ext) r
                (List.mem_append_left ext hrmem) hnd2
            rw [joinTagNames_cons_same, hx, hjoin]
            simp [hrname]
          · intro s
            have h1 := hcount s
            by_cases hss : s = s0
            · subst hss
              have hmem : s ∈ st.tags.map (fun t => t.name) :=
                hrname ▸ List.mem_map_of_mem (fun t => t.name) hrmem
              simp [hmem] at h1 ⊢
              exact h1
            · simp [hss] at h1 ⊢
              exact h1
      | none =>
          have hcore : tagsGetIdCore st.tags (.str s0) = none := by
            simp [tagsGetIdCore, hs0, hfind]
          have hnotmem : ¬ s0 ∈ st.tags.map (fun t => t.name) := by
            intro hmem
            obtain ⟨q, hq, hqn⟩ := List.mem_map.mp hmem
            have := List.find?_eq_none.mp hfind q hq
            simp [hqn] at this
          have hany : st.tags.any (fun t => t.name = s0) = false := by
            rw [← Bool.not_eq_true, List.any_eq_true]
            rintro ⟨q, hq, hqn⟩
            rw [decide_eq_true_eq] at hqn
            exact hnotmem (hqn ▸ List.mem_map_of_mem (fun t => t.name) hq)
          set nid : Int := nextId (st.tags.map (fun t => t.id)) with hnid
          set nr : TagRow := ⟨nid, s0⟩ with hnr
          have hnd1 : ((st.tags ++ [nr]).map (fun t => t.id)).Nodup := by
            rw [List.map_append, List.nodup_append]
            refine ⟨hnd, by simp, ?_⟩
            intro a ha hb
            simp [hnr] at hb
            rw [hb] at ha
            exact nextId_not_mem _ ha
          have hfind1 : (st.tags ++ [nr]).find? (fun t => t.name = s0) = some nr := by
            rw [List.find?_append, hfind]
            simp [List.find?, hnr]
          have hcore1 : tagsGetIdCore (st.tags ++ [nr]) (.str s0) = some nid := by
            simp [tagsGetIdCore, hs0, hfind1, hnr]
          obtain ⟨ext, rows, commits2, heq, hnd2, hjoin, hcount⟩ :=
            ih { st with
                  tags := st.tags ++ [nr],
                  tag_files := st.tag_files ++ [⟨some nid, some v⟩] }
              (commits ++ [{ st with tags := st.tags ++ [nr] }]) hnd1 hall2
          dsimp only at heq hnd2 hjoin hcount
          have hflat : (st.tags ++ [nr]) ++ ext = st.tags ++ nr :: ext := by simp
          refine ⟨nr :: ext, ⟨some nid, some v⟩ :: rows, commits2, ?_, ?_, ?_, ?_⟩
          · rw [List.map_cons, setTagsLoop_cons_new (some v) s0 (List.map NameId.str rest)
              st commits hcore hany hs0, ← hnid, ← hnr, hcore1, heq]
            simp [List.append_assoc]
          · rw [← hflat]
            exact hnd2
          · have hndflat : ((st.tags ++ nr :: ext).map (fun t => t.id)).Nodup := by
              rw [← hflat]; exact hnd2
            have hmemnr : nr ∈ st.tags ++ nr :: ext :=
              List.mem_append_right _ (List.mem_cons_self _ _)
            have hx : (st.tags ++ nr :: ext).filter (fun t => t.id = nid) = [nr] :=
              filter_proj_of_nodup (fun t => t.id) _ nr hmemnr hndflat
            rw [joinTagNames_cons_same, hx, ← hflat, hjoin]
            simp [hnr]
          · intro s
            have h1 := hcount s
            rw [← hflat, h1, List.countP_append]
            by_cases hss : s = s0
            · subst hss
              have hmem1 : s ∈ (st.tags ++ [nr]).map (fun t => t.name) := by simp [hnr]
              simp [hmem1, hnotmem, List.countP_cons, hnr]
            · have hmemiff : (s ∈ (st.tags ++ [nr]).map (fun t => t.name)) ↔
                  s ∈ st.tags.map (fun t => t.name) := by
                simp [hnr, hss]
              simp only [List.countP_cons, List.countP_nil]
              have hnp : (decide (nr.name = s)) = false := by
                simp [hnr]; intro h2; exact absurd h2.symm hss
              simp [hnp, hss, hmemiff]

/-- C5 (amended): for a file reference that resolves and a list of tag
names not containing the sentinel `"__ALL__"`, `set_tags` succeeds and
`get_tags` afterwards reports exactly the listed names — so the replacement
is total regardless of the prior associations, an empty list clears all
tags, and each listed name absent from the store is created exactly once. -/
theorem c5_amended (st : State) (f : NameId) (ts : List String) (v : Int)
    (hf : filesGetId st f = some v)
    (hids : (st.tags.map (fun t => t.id)).Nodup)
    (hall : ¬ "__ALL__" ∈ ts) :
    ∃ st2 commits, filesSetTags st f (ts.map NameId.str) = .ok (st2, commits, true) ∧
      filesGetTags st2 f = ts ∧
      (∀ s ∈ ts, ¬ s ∈ st.tags.map (fun t => t.name) →
        st2.tags.countP (fun t => t.name = s) = 1) := by
  have hall2 : ∀ s ∈ ts, s ≠ "__ALL__" := fun s hs he => hall (he ▸ hs)
  obtain ⟨ext, rows, commits2, heq, hnd2, hjoin, hcount⟩ :=
    setTagsLoop_spec v ts
      { st with tag_files := st.tag_files.filter (fun a => !sqlEq a.file_id (some v)) }
      [] hids hall2
  dsimp only at heq hnd2 hjoin hcount
  refine ⟨{ st with
      tags := st.tags ++ ext,
      tag_files := (st.tag_files.filter (fun a => !sqlEq a.file_id (some v))) ++ rows },
    commits2 ++ [{ st with
      tags := st.tags ++ ext,
      tag_files := (st.tag_files.filter (fun a => !sqlEq a.file_id (some v))) ++ rows }],
    ?_, ?_, ?_⟩
  · simp only [filesSetTags, hf, heq]
  · simp only [filesGetTags, filesGetId]
    rw [show filesGetIdCore st.files f = some v from hf]
    rw [joinTagNames_append]
    have hz : joinTagNames (st.tags ++ ext)
        (st.tag_files.filter (fun a => !sqlEq a.file_id (some v))) (some v) = [] := by
      have hfe : (st.tag_files.filter (fun a => !sqlEq a.file_id (some v))).filter
          (fun a => sqlEq a.file_id (some v)) = [] := by
        apply List.filter_eq_nil_iff.mpr
        intro a ha
        have h2 := List.of_mem_filter ha
        simp only [Bool.not_eq_true'] at h2
        simp [h2]
      simp [joinTagNames, hfe]
    rw [hz, hjoin]
    simp
  · intro s hs hnot
    have h1 := hcount s
    dsimp only
    rw [h1]
    have h0 : st.tags.countP (fun t => t.name = s) = 0 := by
      apply List.countP_eq_zero.mpr
      intro t htm
      simp only [decide_eq_true_eq]
      intro hc
      exact hnot (hc ▸ List.mem_map_of_mem (fun t => t.name) htm)
    rw [h0]
    simp [hs, hnot]

/-- C5 witness: the full-replace conclusion at a concrete store. -/
theorem c5_amended_witness :
    filesGetId demoState (.int 1) = some 1 ∧
    ∃ st2 commits,
      filesSetTags demoState (.int 1) (["a"].map NameId.str) = .ok (st2, commits, true) ∧
      filesGetTags st2 (.int 1) = ["a"] ∧
      (∀ s ∈ ["a"], ¬ s ∈ demoState.tags.map (fun t => t.name) →
        st2.tags.countP (fun t => t.name = s) = 1) :=
  ⟨by decide, c5_amended demoState (.int 1) ["a"] 1 (by decide) (by decide) (by decide)⟩

/-! ### Claim C6: cascading delete -/

/-- C6: after a successful `Tags.remove` that resolved its argument to id
`i`, no association row carries tag_id `i`; after `Files.remove` resolving
to id `j`, no association row carries file_id `j`. -/
theorem c6_cascading_delete (st : State) (x y : NameId) (i j : Int)
    (hx : tagsGetId st x = some i) (hsx : (tagsRemove st x).2 = true)
    (hy : filesGetId st y = some j) :
    (∀ a ∈ (tagsRemove st x).1.tag_files, ¬ a.tag_id = some i) ∧
    (∀ a ∈ (filesRemove st y).1.tag_files, ¬ a.file_id = some j) := by
  constructor
  · intro a ha hc
    by_cases hsent : x = .str "__ALL__"
    · rw [hsent] at hsx; simp [tagsRemove] at hsx
    · simp only [tagsRemove, if_neg hsent] at ha
      rw [List.mem_filter] at ha
      rw [hx] at ha  -- may need adjusting
      rcases ha with ⟨-, hfalse⟩
      rw [hc] at hfalse
      simp [sqlEq] at hfalse
  · intro a ha hc
    simp only [filesRemove] at ha
    rw [List.mem_filter] at ha
    rw [hy] at ha
    rcases ha with ⟨-, hfalse⟩
    rw [hc] at hfalse
    simp [sqlEq] at hfalse

/-- C6 witness: the combined cascade statement at a concrete store. -/
theorem c6_cascading_delete_witness :
    tagsGetId demoState (.str "old") = some 1 ∧
    ((∀ a ∈ (tagsRemove demoState (.str "old")).1.tag_files, ¬ a.tag_id = some 1) ∧
     (∀ a ∈ (filesRemove demoState (.int 1)).1.tag_files, ¬ a.file_id = some 1)) :=
  ⟨by decide, c6_cascading_delete demoState (.str "old") (.int 1) 1 1
    (by decide) (by decide) (by decide)⟩

/-! ### Claim C7: the sentinel matches every file -/

/-- C7: `get_by_tag("__ALL__")` returns every registered file name,
bypassing the join, and `has_tag` is unconditionally true when the tag is
the name `"__ALL__"` or the id -1. -/
theorem c7_sentinel_matches_all (st : State) (f : NameId) :
    filesGetByTag st (.str "__ALL__") = filesAllNames st ∧
    filesHasTag st f (.str "__ALL__") = true ∧
    filesHasTag st f (.int (-1)) = true := by
  refine ⟨?_, ?_, ?_⟩ <;> simp [filesGetByTag, filesHasTag]

/-! ### Claim C8: name uniqueness on creation -/

/-- C8: a second `Tags.new` (resp. `Selections.new`) with a name already in
the table surfaces as a UNIQUE-constraint violation from the storage engine
— an error, not a False return — and inserts nothing (in the model an
`Except.error` carries no new state). -/
theorem c8_unique_new (st : State) (n v : String) (hs : n ≠ "__ALL__") :
    (n ∈ st.tags.map (fun r => r.name) → tagsNew st n = .error (.uniqueViolation "tags")) ∧
    (n ∈ st.selections.map (fun r => r.name) →
      selectionsNew st n v = .error (.uniqueViolation "selections")) := by
  constructor
  · intro ht
    obtain ⟨r, hr, hrn⟩ := List.mem_map.mp ht
    have hany : st.tags.any (fun x => x.name = n) = true :=
      List.any_eq_true.mpr ⟨r, hr, by simp [hrn]⟩
    simp [tagsNew, hs, hany]
  · intro hsel
    obtain ⟨q, hq, hqn⟩ := List.mem_map.mp hsel
    have hany : st.selections.any (fun x => x.name = n) = true :=
      List.any_eq_true.mpr ⟨q, hq, by simp [hqn]⟩
    simp [selectionsNew, hany]

/-- C8 witness: both uniqueness failures at a concrete store. -/
theorem c8_unique_new_witness :
    "t" ∈ demoNamesState.tags.map (fun r => r.name) ∧
    tagsNew demoNamesState "t" = .error (.uniqueViolation "tags") ∧
    selectionsNew demoNamesState "t" "z" = .error (.uniqueViolation "selections") :=
  ⟨by decide, (c8_unique_new demoNamesState "t" "z" (by decide)).1 (by decide),
    (c8_unique_new demoNamesState "t" "z" (by decide)).2 (by decide)⟩

/-! ### Claim C9: selection round-trip -/

/-- C9: for a selection name not already present, `Selections.new(sel, v)`
succeeds and `Selections.resolve(sel)` returns exactly the stored text `v`. -/
theorem c9_selection_roundtrip (st : State) (sel v : String)
    (h : ¬ sel ∈ st.selections.map (fun r => r.name)) :
    ∃ st2, selectionsNew st sel v = .ok (st2, true) ∧ selectionsResolve st2 sel = some v := by
  have hany : st.selections.any (fun x => x.name = sel) = false := by
    rw [← Bool.not_eq_true, List.any_eq_true]
    rintro ⟨r, hr, hname⟩
    rw [decide_eq_true_eq] at hname
    exact h (hname ▸ List.mem_map_of_mem (fun r => r.name) hr)
  refine ⟨{ st with selections := st.selections ++ [⟨sel, v⟩] }, ?_, ?_⟩
  · simp [selectionsNew, hany]
  · have hfind : st.selections.find? (fun x => x.name = sel) = none :=
      find?_proj_eq_none (fun r => r.name) st.selections sel h
    simp [selectionsResolve, List.find?_append, hfind]

/-- C9 witness: the round-trip on the empty store. -/
theorem c9_selection_roundtrip_witness :
    ¬ "s" ∈ emptyState.selections.map (fun r => r.name) ∧
    ∃ st2, selectionsNew emptyState "s" "v" = .ok (st2, true) ∧
      selectionsResolve st2 "s" = some "v" :=
  ⟨by decide, c9_selection_roundtrip emptyState "s" "v" (by decide)⟩

/-! ### Claim C10: dangling NULL association rows -/

/-- C10: `Files.add_tag` with a file name and a tag name that do not exist
(and are not the sentinel) still inserts an association row with NULL in
both columns and returns True — no error is signalled. -/
theorem c10_null_assoc (st : State) (fn tn : String)
    (hf : ¬ fn ∈ st.files.map (fun r => r.name))
    (ht : ¬ tn ∈ st.tags.map (fun r => r.name))
    (hs : tn ≠ "__ALL__") :
    filesAddTag st (.str fn) (.str tn) =
      ({ st with tag_files := st.tag_files ++ [⟨none, none⟩] }, true) := by
  have h1 : tagsGetId st (.str tn) = none := by
    simp only [tagsGetId, tagsGetIdCore, if_neg hs]
    rw [find?_proj_eq_none (fun r => r.name) st.tags tn ht]
    rfl
  have h2 : filesGetId st (.str fn) = none := by
    simp only [filesGetId, filesGetIdCore]
    rw [find?_proj_eq_none (fun r => r.name) st.files fn hf]
    rfl
  simp [filesAddTag, h1, h2, hs]

/-- C10 witness: NULL-NULL association row inserted on the empty store. -/
theorem c10_null_assoc_witness :
    ¬ "nt" ∈ emptyState.tags.map (fun r => r.name) ∧
    filesAddTag emptyState (.str "nf") (.str "nt") =
      ({ emptyState with tag_files := emptyState.tag_files ++ [⟨none, none⟩] }, true) :=
  ⟨by decide, c10_null_assoc emptyState "nf" "nt" (by decide) (by decide) (by decide)⟩

end Tagfs
